import Mathlib

/-!
Verification of the TMM (transfer matrix method) core of the pistachio
repository, `transfer_matrix_method.py`, against its specification.

The Python code is shallowly embedded: floats become real numbers `ℝ`,
numpy complex scalars become `ℂ`, numpy 2×2 matrices become
`Matrix (Fin 2) (Fin 2) ℂ`, and Python operations that raise exceptions
(complex/float division by zero) become `Except String _` values.
Methods of `Layer` that read only instance fields receive those fields as
explicit arguments (`thickness` for `propagation_matrix`); methods that
read no instance state (`wavenumber`, `dynamical_matrix`) drop the
`self` argument.
-/

open Complex Matrix

noncomputable section

namespace Pistachio

/-- speed of light, `scipy.constants.c` (module-level constant `c`). -/
def c : ℝ := 299792458

/-- Planck's constant, `scipy.constants.h` (module-level constant `h`). -/
def planck_h : ℝ := 6.62607015e-34

/-- `scipy.constants.eV`: one electron-volt in joules, numerically the
elementary charge. -/
def eV : ℝ := 1.602176634e-19

/-- The attributes computed by `Light.__init__` from a wavelength. -/
structure LightState where
  wavelength_ : ℝ
  omega : ℝ
  freq : ℝ
  k : ℝ
  energy_J : ℝ
  energy_ev : ℝ

/-- Embedding of `Light.__init__` (lines 22–29).  The constructor performs
no validation; the only failure is Python's `ZeroDivisionError` raised by
`c / wavelength` when `wavelength == 0`. -/
def Light (wavelength : ℝ) : Except String LightState :=
  if wavelength = 0 then
    Except.error "ZeroDivisionError: float division by zero"
  else
    Except.ok
      { wavelength_ := wavelength
        omega := 2 * Real.pi * c / wavelength
        freq := c / wavelength
        k := 2 * Real.pi / wavelength
        energy_J := planck_h * c / wavelength
        energy_ev := planck_h * c / wavelength / eV }

/-- 2×2 complex matrices, the type of all TMM matrices. -/
abbrev Mat2 := Matrix (Fin 2) (Fin 2) ℂ

/-- Embedding of `Layer.wavenumber(self, n, omega, theta=0)` (lines 62–68):
`(k_x, k_z) = (n*omega/c*cos θ, n*omega/c*sin θ)`.  `self` is unused in the
source and dropped here. -/
def wavenumber (n : ℂ) (omega : ℝ) (theta : ℝ) : ℂ × ℂ :=
  (n * omega / c * Real.cos theta, n * omega / c * Real.sin theta)

/-- Embedding of `Layer.propagation_matrix(self, wavenumber)` (lines 70–77);
`self.thickness` is passed explicitly.  `phi = wavenumber * thickness`,
`P = [[exp(-i phi), 0], [0, exp(i phi)]]`. -/
def propagation_matrix (thickness : ℝ) (wavenumber : ℂ) : Mat2 :=
  let phi : ℂ := wavenumber * (thickness : ℂ)
  !![Complex.exp (-(I * phi)), 0; 0, Complex.exp (I * phi)]

/-- Embedding of `Layer.dynamical_matrix(self, n_, theta=0.)` (lines 79–90):
returns the pair (s-wave, p-wave) of dynamical matrices.  `self` is unused
in the source and dropped here. -/
def dynamical_matrix (n_ : ℂ) (theta : ℝ) : Mat2 × Mat2 :=
  let m : ℂ := n_ * (Real.cos theta : ℂ)
  (!![1, 1; m, -m],
   !![(Real.cos theta : ℂ), (Real.cos theta : ℂ); n_, -n_])

/-- Embedding of `multilayer_matrix(array)` (lines 146–150):
`np.linalg.multi_dot`, the left-to-right product of the list. -/
def multilayer_matrix (array : List Mat2) : Mat2 := array.prod

/-- Embedding of `inverse(matrix)` (lines 152–154): `np.linalg.inv`, i.e.
the matrix inverse (Mathlib's nonsingular inverse; all uses below are at
invertible matrices, where the two agree — `np.linalg.inv` raises on a
singular input instead). -/
def inverse (matrix : Mat2) : Mat2 := matrix⁻¹

/-- Embedding of `reflectance(M_)` (lines 156–166).  `r = M[1,0]/M[0,0]`,
`R = (r * conj r).real`.  Python complex division raises
`ZeroDivisionError` when `M[0,0] == 0`. -/
def reflectance (M_ : Mat2) : Except String (ℝ × ℂ) :=
  let M21 := M_ 1 0
  let M11 := M_ 0 0
  if M11 = 0 then
    Except.error "ZeroDivisionError: complex division by zero"
  else
    let r := M21 / M11
    Except.ok ((r * (starRingEnd ℂ) r).re, r)

/-- Embedding of `transmittance(TM, n0=0, ns=0, theta_0=0, theta_s=0)`
(lines 168–178).  `t = 1/M[0,0]` (raising on zero), `t_sq = (t * conj t).real`
(a real number), and `T = det(TM) * t_sq` — a complex scalar, since
`np.linalg.det` of a complex matrix is complex.  The parameters `n0`, `ns`,
`theta_0`, `theta_s` are accepted but never used (the line using them is
commented out in the source). -/
def transmittance (TM : Mat2) (n0 ns : ℂ) (theta_0 theta_s : ℝ) :
    Except String (ℂ × ℂ) :=
  let M11 := TM 0 0
  if M11 = 0 then
    Except.error "ZeroDivisionError: complex division by zero"
  else
    let t := 1 / M11
    let t_sq : ℝ := (t * (starRingEnd ℂ) t).re
    Except.ok (TM.det * (t_sq : ℂ), t)

/-- The three matrices one interior layer appends inside the loop of `main`
(lines 307–317): `n = index[i] + 1j*extinct[i]` and the layer's thickness
are the components of `nd`; `kx = wavenumber(n, omega)[0]`, and the
s-wave dynamical matrix (index `[0]`) is used.  The list extended is
`[D, P, Dinv]`. -/
def layerMatrices (omega : ℝ) (nd : ℂ × ℝ) : List Mat2 :=
  let n := nd.1
  let kx := (wavenumber n omega 0).1
  let D := (dynamical_matrix n 0).1
  [D, propagation_matrix nd.2 kx, inverse D]

/-- One iteration of the matrix-list construction of `main` (lines 294–322)
at a single wavelength: the ordered list
`[D0_inv] ++ (for each layer [D, P, D_inv]) ++ [D_substrate]`, using the
s-wave dynamical matrices (index `[0]`) and normal incidence. -/
def mainMatrixList (n0 : ℂ) (layers : List (ℂ × ℝ)) (omega : ℝ) (ns : ℂ) :
    List Mat2 :=
  let D0inv := inverse (dynamical_matrix n0 0).1
  let Ds := (dynamical_matrix ns 0).1
  D0inv :: layers.flatMap (layerMatrices omega) ++ [Ds]

/-- The transfer matrix `main` actually composes (line 325):
`multilayer_matrix([D0inv, D, P, Dinv, Ds])`, where `D`, `P`, `Dinv` are
whatever the loop variables hold after the last iteration — the matrices of
the LAST interior layer only.  `none` when the layer list is empty (the
source would raise `NameError` there). -/
def mainTransferMatrix (n0 : ℂ) (layers : List (ℂ × ℝ)) (omega : ℝ)
    (ns : ℂ) : Option Mat2 :=
  match layers.getLast? with
  | none => none
  | some nd =>
    let D0inv := inverse (dynamical_matrix n0 0).1
    let Ds := (dynamical_matrix ns 0).1
    some (multilayer_matrix (D0inv :: layerMatrices omega nd ++ [Ds]))

/-! ### Basic lemmas about the embedded definitions -/

/-- The s-wave dynamical matrix at normal incidence. -/
lemma dynamical_matrix_fst_zero (n : ℂ) :
    (dynamical_matrix n 0).1 = !![1, 1; n, -n] := by
  simp [dynamical_matrix]

/-- Determinant of the s-wave dynamical matrix at normal incidence. -/
lemma det_dynamical_matrix (n : ℂ) :
    ((dynamical_matrix n 0).1).det = -(2 * n) := by
  rw [dynamical_matrix_fst_zero, Matrix.det_fin_two_of]
  ring

/-- Explicit form of the inverse of the s-wave dynamical matrix. -/
lemma inverse_dynamical_matrix (n : ℂ) (hn : n ≠ 0) :
    inverse (dynamical_matrix n 0).1 =
      !![1 / 2, 1 / (2 * n); 1 / 2, -(1 / (2 * n))] := by
  rw [inverse, dynamical_matrix_fst_zero]
  apply Matrix.inv_eq_right_inv
  rw [Matrix.mul_fin_two, Matrix.one_fin_two]
  ext i j
  fin_cases i <;> fin_cases j <;> field_simp <;> ring

/-! ### Claims C10, C6, C7, C4, C8, C5, C3 -/

/-- C10: at normal incidence the s-wave and p-wave dynamical matrices
returned by `dynamical_matrix(n, 0)` coincide, both equal to
`[[1, 1], [n, -n]]`. -/
theorem C10_dynamical_matrix_polarizations_agree_at_normal_incidence (n : ℂ) :
    (dynamical_matrix n 0).1 = (dynamical_matrix n 0).2 ∧
    (dynamical_matrix n 0).1 = !![1, 1; n, -n] := by
  constructor <;> simp [dynamical_matrix]

/-- C6: `transmittance` does not depend on its `n0`, `ns`, `theta_0`,
`theta_s` parameters: any two argument tuples give the same result. -/
theorem C6_transmittance_ignores_extra_arguments (TM : Mat2)
    (n0 ns n0' ns' : ℂ) (theta_0 theta_s theta_0' theta_s' : ℝ) :
    transmittance TM n0 ns theta_0 theta_s =
      transmittance TM n0' ns' theta_0' theta_s' := rfl

/-- C7: for `M[0,0] ≠ 0`, `reflectance(M)` returns `(R, r)` with
`r = M[1,0] / M[0,0]` and `R = Re(r · conj r)`. -/
theorem C7_reflectance_formula (M : Mat2) (h : M 0 0 ≠ 0) :
    reflectance M =
      Except.ok (((M 1 0 / M 0 0) * (starRingEnd ℂ) (M 1 0 / M 0 0)).re,
        M 1 0 / M 0 0) := by
  rw [reflectance]
  simp only [h, if_false, ite_false, if_neg h]

/-- Witness for C7 at `M = [[1, 0], [2, 3]]`. -/
theorem C7_witness :
    reflectance !![1, 0; 2, 3] =
      Except.ok ((((!![1, 0; 2, 3] : Mat2) 1 0 / (!![1, 0; 2, 3] : Mat2) 0 0) *
          (starRingEnd ℂ) ((!![1, 0; 2, 3] : Mat2) 1 0 / (!![1, 0; 2, 3] : Mat2) 0 0)).re,
        (!![1, 0; 2, 3] : Mat2) 1 0 / (!![1, 0; 2, 3] : Mat2) 0 0) :=
  C7_reflectance_formula !![1, 0; 2, 3] (by simp)

/-- C4: when `M[0,0] = 0`, both `reflectance` and `transmittance` report a
division-by-zero error instead of returning a value. -/
theorem C4_zero_leading_entry_raises (M : Mat2) (n0 ns : ℂ)
    (theta_0 theta_s : ℝ) (h : M 0 0 = 0) :
    reflectance M = Except.error "ZeroDivisionError: complex division by zero" ∧
    transmittance M n0 ns theta_0 theta_s =
      Except.error "ZeroDivisionError: complex division by zero" := by
  constructor
  · rw [reflectance]
    simp only [h, if_true, ite_true, if_pos]
  · rw [transmittance]
    simp only [h, if_true, ite_true, if_pos]

/-- Witness for C4 at the zero matrix. -/
theorem C4_witness :
    reflectance 0 = Except.error "ZeroDivisionError: complex division by zero" ∧
    transmittance 0 0 0 0 0 =
      Except.error "ZeroDivisionError: complex division by zero" :=
  C4_zero_leading_entry_raises 0 0 0 0 0 (by simp)

/-- C8: for positive wavelength the Light construction succeeds and its
attributes are `2πc/λ`, `c/λ`, `2π/λ`, `hc/λ` and the joule energy divided
by the elementary charge (`scipy.constants.eV`). -/
theorem C8_light_derived_quantities (wl : ℝ) (hw : 0 < wl) :
    ∃ s, Light wl = Except.ok s ∧
      s.omega = 2 * Real.pi * c / wl ∧
      s.freq = c / wl ∧
      s.k = 2 * Real.pi / wl ∧
      s.energy_J = planck_h * c / wl ∧
      s.energy_ev = s.energy_J / eV := by
  refine ⟨⟨wl, 2 * Real.pi * c / wl, c / wl, 2 * Real.pi / wl,
      planck_h * c / wl, planck_h * c / wl / eV⟩,
    ?_, rfl, rfl, rfl, rfl, rfl⟩
  rw [Light, if_neg (ne_of_gt hw)]

/-- Witness for C8 at `λ = 1`. -/
theorem C8_witness :
    ∃ s, Light 1 = Except.ok s ∧
      s.omega = 2 * Real.pi * c / 1 ∧
      s.freq = c / 1 ∧
      s.k = 2 * Real.pi / 1 ∧
      s.energy_J = planck_h * c / 1 ∧
      s.energy_ev = s.energy_J / eV :=
  C8_light_derived_quantities 1 one_pos

/-- Counterexample to C5: the claim says construction fails whenever the
wavelength is ≤ 0, but at wavelength `-1` (which is ≤ 0) the constructor
succeeds: no validation is performed. -/
theorem C5_counterexample :
    (-1 : ℝ) ≤ 0 ∧ ∃ s, Light (-1) = Except.ok s :=
  ⟨by norm_num, ⟨_, by rw [Light, if_neg (by norm_num)]⟩⟩

/-- C5 amended: construction fails (with a division-by-zero error) exactly
at wavelength `0`; every nonzero wavelength — negative ones included —
constructs successfully. -/
theorem C5_amended_no_wavelength_validation :
    Light 0 = Except.error "ZeroDivisionError: float division by zero" ∧
    ∀ wl : ℝ, wl ≠ 0 → ∃ s, Light wl = Except.ok s := by
  constructor
  · rw [Light, if_pos rfl]
  · intro wl hw
    exact ⟨_, by rw [Light, if_neg hw]⟩

/-- Witness for the amended C5, applying it at wavelength `1`. -/
theorem C5_witness :
    Light 0 = Except.error "ZeroDivisionError: float division by zero" ∧
    ∃ s, Light 1 = Except.ok s :=
  ⟨C5_amended_no_wavelength_validation.1,
   C5_amended_no_wavelength_validation.2 1 one_ne_zero⟩

/-- Counterexample to C3: at `M = [[i, 0], [0, 1]]` the returned `T` is
`det(M)·Re(t·conj t) = i`, which has nonzero imaginary part — not the real
number `Re(det M)·Re(t·conj t) = 0` the claim asserts. -/
theorem C3_counterexample :
    transmittance !![I, 0; 0, 1] 0 0 0 0 = Except.ok (I, -I) ∧
    Complex.I.im ≠ 0 := by
  constructor
  · rw [transmittance]
    simp [Matrix.det_fin_two_of, Complex.ext_iff]
  · simp

/-- C3 amended: for `M[0,0] ≠ 0`, `transmittance` returns `(T, t)` with
`t = 1/M[0,0]` and `T = det(M) · Re(t·conj t)` — a complex scalar whose
real part is `Re(det M) · Re(t·conj t)`; the returned `T` itself is real
only when `det M` is. -/
theorem C3_amended_transmittance_formula (M : Mat2) (n0 ns : ℂ)
    (theta_0 theta_s : ℝ) (h : M 0 0 ≠ 0) :
    transmittance M n0 ns theta_0 theta_s =
      Except.ok (M.det * ((((1 / M 0 0) * (starRingEnd ℂ) (1 / M 0 0)).re : ℝ) : ℂ),
        1 / M 0 0) ∧
    (M.det * ((((1 / M 0 0) * (starRingEnd ℂ) (1 / M 0 0)).re : ℝ) : ℂ)).re =
      M.det.re * ((1 / M 0 0) * (starRingEnd ℂ) (1 / M 0 0)).re := by
  constructor
  · rw [transmittance]
    simp only [h, if_false, ite_false, if_neg h]
  · simp [Complex.mul_re]

/-- Witness for the amended C3 at `M = [[1, 0], [2, 3]]`. -/
theorem C3_witness :
    transmittance !![1, 0; 2, 3] 0 0 0 0 =
      Except.ok ((!![1, 0; 2, 3] : Mat2).det *
          ((((1 / (!![1, 0; 2, 3] : Mat2) 0 0) *
              (starRingEnd ℂ) (1 / (!![1, 0; 2, 3] : Mat2) 0 0)).re : ℝ) : ℂ),
        1 / (!![1, 0; 2, 3] : Mat2) 0 0) ∧
    ((!![1, 0; 2, 3] : Mat2).det *
        ((((1 / (!![1, 0; 2, 3] : Mat2) 0 0) *
            (starRingEnd ℂ) (1 / (!![1, 0; 2, 3] : Mat2) 0 0)).re : ℝ) : ℂ)).re =
      (!![1, 0; 2, 3] : Mat2).det.re *
        ((1 / (!![1, 0; 2, 3] : Mat2) 0 0) *
          (starRingEnd ℂ) (1 / (!![1, 0; 2, 3] : Mat2) 0 0)).re :=
  C3_amended_transmittance_formula !![1, 0; 2, 3] 0 0 0 0 (by simp)

/-! ### Zero-thickness layer lemmas -/

/-- A zero-thickness layer has the identity as its propagation matrix. -/
lemma propagation_matrix_zero_thickness (k : ℂ) :
    propagation_matrix 0 k = 1 := by
  rw [propagation_matrix, Matrix.one_fin_two]
  norm_num

/-- The `[D, P, Dinv]` triple of a zero-thickness layer multiplies to the
identity. -/
lemma layerMatrices_zero_thickness_prod (omega : ℝ) (n : ℂ) (hn : n ≠ 0) :
    (layerMatrices omega (n, 0)).prod = 1 := by
  have hdet : IsUnit ((dynamical_matrix n 0).1).det := by
    rw [det_dynamical_matrix]
    exact isUnit_iff_ne_zero.mpr (by simpa using hn)
  have h1 : (layerMatrices omega (n, 0)).prod =
      (dynamical_matrix n 0).1 * inverse (dynamical_matrix n 0).1 := by
    simp [layerMatrices, propagation_matrix_zero_thickness]
  rw [h1, inverse]
  exact Matrix.mul_nonsing_inv _ hdet

/-- The spec-intended invariance: removing a zero-thickness interior layer
(of nonzero index) from the stack leaves the product of the ASSEMBLED
matrix list — hence R and T extracted from it — unchanged.  The program,
however, does not compose the assembled list (see the C1 and C9
theorems). -/
lemma mainMatrixList_zero_thickness_removable (n n0 ns : ℂ) (omega : ℝ)
    (pre suf : List (ℂ × ℝ)) (hn : n ≠ 0) :
    multilayer_matrix (mainMatrixList n0 (pre ++ (n, 0) :: suf) omega ns) =
      multilayer_matrix (mainMatrixList n0 (pre ++ suf) omega ns) := by
  simp [multilayer_matrix, mainMatrixList, List.flatMap_append, List.flatMap_cons,
    List.prod_append, layerMatrices_zero_thickness_prod omega n hn]

/-! ### Claim C2: lossless stacks at normal incidence

For a lossless layer (real index `n`, real phase) the triple `D·P·D⁻¹` is a
matrix with real diagonal, purely imaginary off-diagonal entries and
determinant 1; this shape is closed under multiplication, and it forces
`R + T = 1` after the ambient/substrate dynamical matrices are applied. -/

/-- Matrices of the shape `[[a, b·i], [c·i, d]]` with `a, b, c, d` real and
`a·d + b·c = 1`. -/
def losslessForm (M : Mat2) : Prop :=
  ∃ a b cc d : ℝ,
    M = !![(a : ℂ), (b : ℂ) * I; (cc : ℂ) * I, (d : ℂ)] ∧ a * d + b * cc = 1

lemma losslessForm_one : losslessForm 1 := by
  refine ⟨1, 0, 0, 1, ?_, by norm_num⟩
  rw [Matrix.one_fin_two]
  norm_num

lemma losslessForm_mul {M N : Mat2} (hM : losslessForm M)
    (hN : losslessForm N) : losslessForm (M * N) := by
  obtain ⟨a1, b1, c1, d1, hM1, hM2⟩ := hM
  obtain ⟨a2, b2, c2, d2, hN1, hN2⟩ := hN
  refine ⟨a1 * a2 - b1 * c2, a1 * b2 + b1 * d2, c1 * a2 + d1 * c2,
    d1 * d2 - c1 * b2, ?_, ?_⟩
  · rw [hM1, hN1, Matrix.mul_fin_two]
    ext i j
    fin_cases i <;> fin_cases j <;>
      simp [Complex.ext_iff, Complex.add_re, Complex.add_im, Complex.mul_re,
        Complex.mul_im] <;>
      push_cast <;> (try constructor) <;> ring
  · linear_combination (a2 * d2 + b2 * c2) * hM2 + hN2

/-- The `[D, P, D⁻¹]` triple of a lossless layer (real index, real
thickness) at normal incidence has the lossless form. -/
lemma losslessForm_layerMatrices (n d omega : ℝ) (hn : n ≠ 0) :
    losslessForm ((layerMatrices omega ((n : ℂ), d)).prod) := by
  have hnC : (n : ℂ) ≠ 0 := Complex.ofReal_ne_zero.mpr hn
  set φ : ℝ := n * omega / c * d with hφdef
  have hphi : ((n : ℂ) * (omega : ℂ) / (c : ℂ) * (Real.cos 0 : ℂ)) * (d : ℂ) =
      ((φ : ℝ) : ℂ) := by
    rw [hφdef]
    push_cast [Real.cos_zero]
    ring
  have he : Complex.exp (-(I * ((φ : ℝ) : ℂ))) =
      (Real.cos φ : ℂ) - (Real.sin φ : ℂ) * I := by
    have h1 : -(I * ((φ : ℝ) : ℂ)) = ((-φ : ℝ) : ℂ) * I := by push_cast; ring
    rw [h1, Complex.exp_mul_I, ← Complex.ofReal_cos, ← Complex.ofReal_sin,
      Real.cos_neg, Real.sin_neg]
    push_cast
    ring
  have hf : Complex.exp (I * ((φ : ℝ) : ℂ)) =
      (Real.cos φ : ℂ) + (Real.sin φ : ℂ) * I := by
    have h1 : I * ((φ : ℝ) : ℂ) = ((φ : ℝ) : ℂ) * I := by ring
    rw [h1, Complex.exp_mul_I, ← Complex.ofReal_cos, ← Complex.ofReal_sin]
  refine ⟨Real.cos φ, -(Real.sin φ) / n, -(n * Real.sin φ), Real.cos φ, ?_, ?_⟩
  · have hprod : (layerMatrices omega ((n : ℂ), d)).prod =
        (dynamical_matrix (n : ℂ) 0).1 *
          (propagation_matrix d ((wavenumber (n : ℂ) omega 0).1) *
            inverse (dynamical_matrix (n : ℂ) 0).1) := by
      simp [layerMatrices]
    rw [hprod, inverse_dynamical_matrix _ hnC, dynamical_matrix_fst_zero,
      propagation_matrix, wavenumber]
    simp only [hphi, he, hf]
    ext i j
    fin_cases i <;> fin_cases j <;>
      simp [Matrix.mul_apply, Fin.sum_univ_two] <;>
      push_cast <;> field_simp <;> ring
  · field_simp
    linear_combination n * Real.sin_sq_add_cos_sq φ

/-- The flattened interior-layer matrix list of a lossless stack multiplies
to a matrix of the lossless form. -/
lemma losslessForm_flatMap (omega : ℝ) (layers : List (ℝ × ℝ))
    (hl : ∀ p ∈ layers, p.1 ≠ 0) :
    losslessForm
      (((layers.map fun p => ((p.1 : ℂ), p.2)).flatMap (layerMatrices omega)).prod) := by
  induction layers with
  | nil => simpa using losslessForm_one
  | cons p rest ih =>
      simp only [List.map_cons, List.flatMap_cons, List.prod_append]
      exact losslessForm_mul
        (losslessForm_layerMatrices p.1 p.2 omega (hl p (by simp)))
        (ih fun q hq => hl q (by simp [hq]))

/-- Coefficient extraction from `D0⁻¹ · Q · Ds` for a lossless-form `Q`:
the reflectance and transmittance succeed and their powers sum to 1. -/
lemma lossless_extraction (n0 ns : ℝ) (h0 : 0 < n0) (hs : 0 < ns)
    (Q : Mat2) (hQ : losslessForm Q) :
    ∃ R r T t,
      reflectance (inverse (dynamical_matrix (n0 : ℂ) 0).1 *
          (Q * (dynamical_matrix (ns : ℂ) 0).1)) = Except.ok (R, r) ∧
      transmittance (inverse (dynamical_matrix (n0 : ℂ) 0).1 *
          (Q * (dynamical_matrix (ns : ℂ) 0).1)) (n0 : ℂ) (ns : ℂ) 0 0 =
        Except.ok (T, t) ∧
      R + T.re = 1 := by
  obtain ⟨a, b, cc, d, hQf, hdet1⟩ := hQ
  have hn0 : n0 ≠ 0 := ne_of_gt h0
  have hnsne : ns ≠ 0 := ne_of_gt hs
  have hn0C : (n0 : ℂ) ≠ 0 := Complex.ofReal_ne_zero.mpr hn0
  set M : Mat2 := inverse (dynamical_matrix (n0 : ℂ) 0).1 *
    (Q * (dynamical_matrix (ns : ℂ) 0).1) with hMdef
  have h00 : M 0 0 = (((n0 * a + ns * d) / (2 * n0) : ℝ) : ℂ) +
      (((cc + n0 * ns * b) / (2 * n0) : ℝ) : ℂ) * I := by
    rw [hMdef, hQf, inverse_dynamical_matrix _ hn0C, dynamical_matrix_fst_zero]
    simp [Matrix.mul_apply, Fin.sum_univ_two]
    push_cast
    field_simp
    ring
  have h10 : M 1 0 = (((n0 * a - ns * d) / (2 * n0) : ℝ) : ℂ) +
      (((n0 * ns * b - cc) / (2 * n0) : ℝ) : ℂ) * I := by
    rw [hMdef, hQf, inverse_dynamical_matrix _ hn0C, dynamical_matrix_fst_zero]
    simp [Matrix.mul_apply, Fin.sum_univ_two]
    push_cast
    field_simp
    ring
  have hdetM : M.det = ((ns / n0 : ℝ) : ℂ) := by
    have hdQ : Q.det = 1 := by
      rw [hQf, Matrix.det_fin_two_of]
      have hI : (a : ℂ) * d - (b : ℂ) * I * ((cc : ℂ) * I) =
          ((a * d + b * cc : ℝ) : ℂ) := by
        push_cast
        linear_combination (-(b : ℂ) * (cc : ℂ)) * Complex.I_mul_I
      rw [hI, hdet1]
      norm_num
    rw [hMdef, Matrix.det_mul, Matrix.det_mul, hdQ,
      inverse_dynamical_matrix _ hn0C, Matrix.det_fin_two_of,
      det_dynamical_matrix]
    push_cast
    field_simp
    ring
  have hkey : (n0 * a + ns * d) ^ 2 + (cc + n0 * ns * b) ^ 2 =
      (n0 * a - ns * d) ^ 2 + (n0 * ns * b - cc) ^ 2 + 4 * n0 * ns := by
    linear_combination (4 * n0 * ns) * hdet1
  have hS0pos : 0 < (n0 * a + ns * d) ^ 2 + (cc + n0 * ns * b) ^ 2 := by
    nlinarith [sq_nonneg (n0 * a - ns * d), sq_nonneg (n0 * ns * b - cc),
      mul_pos h0 hs]
  have h4 : ((2 * n0) ^ 2 : ℝ) ≠ 0 := pow_ne_zero 2 (by simpa using hn0)
  have hnorm0 : Complex.normSq (M 0 0) =
      ((n0 * a + ns * d) ^ 2 + (cc + n0 * ns * b) ^ 2) / (2 * n0) ^ 2 := by
    rw [h00, Complex.normSq_add_mul_I]
    field_simp
  have hnorm1 : Complex.normSq (M 1 0) =
      ((n0 * a - ns * d) ^ 2 + (n0 * ns * b - cc) ^ 2) / (2 * n0) ^ 2 := by
    rw [h10, Complex.normSq_add_mul_I]
    field_simp
  have hM00 : M 0 0 ≠ 0 := by
    have hpos : 0 < Complex.normSq (M 0 0) := by
      rw [hnorm0]
      exact div_pos hS0pos (lt_of_le_of_ne (sq_nonneg _) (Ne.symm h4))
    exact Complex.normSq_pos.mp hpos
  have hS0ne : (n0 * a + ns * d) ^ 2 + (cc + n0 * ns * b) ^ 2 ≠ 0 :=
    ne_of_gt hS0pos
  have hR : ((M 1 0 / M 0 0) * (starRingEnd ℂ) (M 1 0 / M 0 0)).re =
      ((n0 * a - ns * d) ^ 2 + (n0 * ns * b - cc) ^ 2) /
        ((n0 * a + ns * d) ^ 2 + (cc + n0 * ns * b) ^ 2) := by
    rw [Complex.mul_conj, Complex.ofReal_re, Complex.normSq_div, hnorm0, hnorm1]
    field_simp
  have ht : ((1 / M 0 0) * (starRingEnd ℂ) (1 / M 0 0)).re =
      (2 * n0) ^ 2 / ((n0 * a + ns * d) ^ 2 + (cc + n0 * ns * b) ^ 2) := by
    rw [Complex.mul_conj, Complex.ofReal_re, Complex.normSq_div,
      Complex.normSq_one, hnorm0, one_div_div]
  have hTre : (M.det *
      ((((1 / M 0 0) * (starRingEnd ℂ) (1 / M 0 0)).re : ℝ) : ℂ)).re =
      ns / n0 * ((2 * n0) ^ 2 /
        ((n0 * a + ns * d) ^ 2 + (cc + n0 * ns * b) ^ 2)) := by
    rw [ht, hdetM, ← Complex.ofReal_mul, Complex.ofReal_re]
  refine ⟨((M 1 0 / M 0 0) * (starRingEnd ℂ) (M 1 0 / M 0 0)).re, M 1 0 / M 0 0,
    M.det * ((((1 / M 0 0) * (starRingEnd ℂ) (1 / M 0 0)).re : ℝ) : ℂ), 1 / M 0 0,
    ?_, ?_, ?_⟩
  · rw [reflectance]
    simp only [hM00, if_neg hM00, if_false, ite_false]
  · rw [transmittance]
    simp only [hM00, if_neg hM00, if_false, ite_false]
  · rw [hR, hTre]
    have hT4 : ns / n0 * ((2 * n0) ^ 2 /
        ((n0 * a + ns * d) ^ 2 + (cc + n0 * ns * b) ^ 2)) =
        4 * n0 * ns / ((n0 * a + ns * d) ^ 2 + (cc + n0 * ns * b) ^ 2) := by
      field_simp
      ring
    rw [hT4, div_add_div_same, ← hkey, div_self hS0ne]

/-- C2: for a lossless stack (real indices, so zero extinction everywhere)
at normal incidence, with positive ambient and substrate indices and every
interior index nonzero, the extracted reflectance `R` and (real part of
the) transmittance `T` satisfy `R + T = 1`, in particular within `1e-9`. -/
theorem C2_lossless_R_plus_T_eq_one (n0 ns omega : ℝ) (layers : List (ℝ × ℝ))
    (h0 : 0 < n0) (hs : 0 < ns) (hl : ∀ p ∈ layers, p.1 ≠ 0) :
    ∃ R r T t,
      reflectance (multilayer_matrix (mainMatrixList (n0 : ℂ)
          (layers.map fun p => ((p.1 : ℂ), p.2)) omega (ns : ℂ))) =
        Except.ok (R, r) ∧
      transmittance (multilayer_matrix (mainMatrixList (n0 : ℂ)
          (layers.map fun p => ((p.1 : ℂ), p.2)) omega (ns : ℂ)))
          (n0 : ℂ) (ns : ℂ) 0 0 = Except.ok (T, t) ∧
      |R + T.re - 1| ≤ 1e-9 := by
  have hM : multilayer_matrix (mainMatrixList (n0 : ℂ)
      (layers.map fun p => ((p.1 : ℂ), p.2)) omega (ns : ℂ)) =
      inverse (dynamical_matrix (n0 : ℂ) 0).1 *
        (((layers.map fun p => ((p.1 : ℂ), p.2)).flatMap
            (layerMatrices omega)).prod *
          (dynamical_matrix (ns : ℂ) 0).1) := by
    simp [multilayer_matrix, mainMatrixList, List.prod_append]
  obtain ⟨R, r, T, t, h1, h2, h3⟩ :=
    lossless_extraction n0 ns h0 hs _ (losslessForm_flatMap omega layers hl)
  refine ⟨R, r, T, t, ?_, ?_, ?_⟩
  · rw [hM]
    exact h1
  · rw [hM]
    exact h2
  · rw [h3]
    norm_num

/-- Witness for C2: the empty lossless stack with ambient and substrate
indices 1. -/
theorem C2_witness :
    ∃ R r T t,
      reflectance (multilayer_matrix (mainMatrixList ((1 : ℝ) : ℂ)
          (([] : List (ℝ × ℝ)).map fun p => ((p.1 : ℂ), p.2)) 0 ((1 : ℝ) : ℂ))) =
        Except.ok (R, r) ∧
      transmittance (multilayer_matrix (mainMatrixList ((1 : ℝ) : ℂ)
          (([] : List (ℝ × ℝ)).map fun p => ((p.1 : ℂ), p.2)) 0 ((1 : ℝ) : ℂ)))
          ((1 : ℝ) : ℂ) ((1 : ℝ) : ℂ) 0 0 = Except.ok (T, t) ∧
      |R + T.re - 1| ≤ 1e-9 :=
  C2_lossless_R_plus_T_eq_one 1 1 0 [] one_pos one_pos (by simp)

/-! ### Claim C1: composition of the full matrix list

`main` builds `M_list` with every layer's `[D, P, Dinv]` triple but then
composes `multilayer_matrix([D0inv, D, P, Dinv, Ds])` from the loop
variables of the last iteration (line 325), so interior layers other than
the last one are dropped from the product. -/

lemma isUnit_det_dyn (n : ℂ) (hn : n ≠ 0) :
    IsUnit ((dynamical_matrix n 0).1).det := by
  rw [det_dynamical_matrix]
  exact isUnit_iff_ne_zero.mpr (by simpa using hn)

lemma wavenumber_two_c : (wavenumber 2 c 0).1 = 2 := by
  have hcC : (c : ℂ) ≠ 0 := Complex.ofReal_ne_zero.mpr (by norm_num [c])
  rw [wavenumber]
  simp only [Real.cos_zero, Complex.ofReal_one, mul_one]
  rw [mul_div_assoc, div_self hcC, mul_one]

lemma prop_matrix_half_two : propagation_matrix (1 / 2) ((wavenumber 2 c 0).1) =
    !![Complex.exp (-I), 0; 0, Complex.exp I] := by
  have h12 : ((2 : ℂ)) * ((1 / 2 : ℝ) : ℂ) = 1 := by
    push_cast
    ring
  rw [wavenumber_two_c]
  simp only [propagation_matrix, h12, mul_one]

/-- The `[D, P, Dinv]` product of the index-2, half-unit-thickness layer at
`omega = c`. -/
lemma layer_two_prod : (layerMatrices c ((2 : ℂ), 1 / 2)).prod =
    !![Complex.exp (-I) / 2 + Complex.exp I / 2,
       Complex.exp (-I) / 4 - Complex.exp I / 4;
       Complex.exp (-I) - Complex.exp I,
       Complex.exp (-I) / 2 + Complex.exp I / 2] := by
  have hprod : (layerMatrices c ((2 : ℂ), 1 / 2)).prod =
      (dynamical_matrix (2 : ℂ) 0).1 *
        (propagation_matrix (1 / 2) ((wavenumber (2 : ℂ) c 0).1) *
          inverse (dynamical_matrix (2 : ℂ) 0).1) := by
    simp [layerMatrices]
  rw [hprod, prop_matrix_half_two, inverse_dynamical_matrix _ (by norm_num),
    dynamical_matrix_fst_zero]
  ext i j
  fin_cases i <;> fin_cases j <;>
    simp [Matrix.mul_apply, Fin.sum_univ_two] <;> ring

/-- The ambient-inverse / layer-product / substrate sandwich of the failing
input, entry (0,0). -/
lemma single_layer_sandwich_entry00 :
    (inverse (dynamical_matrix (1 : ℂ) 0).1 *
        ((layerMatrices c ((2 : ℂ), 1 / 2)).prod *
          (dynamical_matrix (1 : ℂ) 0).1)) 0 0 =
      ((9 / 8 : ℝ) : ℂ) * Complex.exp (-I) - ((1 / 8 : ℝ) : ℂ) * Complex.exp I := by
  rw [layer_two_prod, inverse_dynamical_matrix _ one_ne_zero,
    dynamical_matrix_fst_zero]
  simp [Matrix.mul_apply, Fin.sum_univ_two]
  push_cast
  ring

/-- The same sandwich, entry (1,0). -/
lemma single_layer_sandwich_entry10 :
    (inverse (dynamical_matrix (1 : ℂ) 0).1 *
        ((layerMatrices c ((2 : ℂ), 1 / 2)).prod *
          (dynamical_matrix (1 : ℂ) 0).1)) 1 0 =
      ((3 / 8 : ℝ) : ℂ) * Complex.exp I - ((3 / 8 : ℝ) : ℂ) * Complex.exp (-I) := by
  rw [layer_two_prod, inverse_dynamical_matrix _ one_ne_zero,
    dynamical_matrix_fst_zero]
  simp [Matrix.mul_apply, Fin.sum_univ_two]
  push_cast
  ring

/-- The faithful composition of the two-layer failing input. -/
lemma mainMatrixList_two_layer_entry :
    (multilayer_matrix
        (mainMatrixList 1 [((2 : ℂ), 1 / 2), ((1 : ℂ), 0)] c 1)) 0 0 =
      ((9 / 8 : ℝ) : ℂ) * Complex.exp (-I) - ((1 / 8 : ℝ) : ℂ) * Complex.exp I := by
  have hM1 : multilayer_matrix
      (mainMatrixList 1 [((2 : ℂ), 1 / 2), ((1 : ℂ), 0)] c 1) =
      inverse (dynamical_matrix (1 : ℂ) 0).1 *
        ((layerMatrices c ((2 : ℂ), 1 / 2)).prod * (dynamical_matrix (1 : ℂ) 0).1) := by
    simp [multilayer_matrix, mainMatrixList, List.prod_append,
      layerMatrices_zero_thickness_prod c 1 one_ne_zero]
  rw [hM1]
  exact single_layer_sandwich_entry00

lemma exp_I_eq : Complex.exp I = (Real.cos 1 : ℂ) + (Real.sin 1 : ℂ) * I := by
  have h1 := Complex.exp_mul_I 1
  rw [one_mul] at h1
  rw [h1, ← Complex.ofReal_one, ← Complex.ofReal_cos, ← Complex.ofReal_sin]

lemma exp_neg_I_eq :
    Complex.exp (-I) = (Real.cos 1 : ℂ) - (Real.sin 1 : ℂ) * I := by
  have h1 := Complex.exp_mul_I (-1)
  rw [neg_one_mul] at h1
  rw [h1, Complex.cos_neg, Complex.sin_neg, ← Complex.ofReal_one,
    ← Complex.ofReal_cos, ← Complex.ofReal_sin]
  ring

lemma sin_one_pos : 0 < Real.sin 1 :=
  Real.sin_pos_of_pos_of_lt_pi one_pos (by linarith [Real.pi_gt_three])

/-- The (0,0) entry of the faithful composition is not `1`: its imaginary
part is `-(5/4)·sin 1 < 0`. -/
lemma two_layer_entry_ne_one :
    ((9 / 8 : ℝ) : ℂ) * Complex.exp (-I) - ((1 / 8 : ℝ) : ℂ) * Complex.exp I ≠ 1 := by
  intro heq
  rw [exp_neg_I_eq, exp_I_eq] at heq
  have him := congrArg Complex.im heq
  simp only [Complex.sub_im, Complex.add_im, Complex.mul_im, Complex.mul_re,
    Complex.ofReal_re, Complex.ofReal_im, Complex.I_re, Complex.I_im,
    Complex.one_im, mul_zero, zero_mul, mul_one, one_mul, add_zero, zero_add,
    sub_zero, zero_sub] at him
  nlinarith [him, sin_one_pos]

/-- The (0,0) entry of the sandwich is nonzero, for the same reason. -/
lemma two_layer_entry_ne_zero :
    ((9 / 8 : ℝ) : ℂ) * Complex.exp (-I) - ((1 / 8 : ℝ) : ℂ) * Complex.exp I ≠ 0 := by
  intro heq
  rw [exp_neg_I_eq, exp_I_eq] at heq
  have him := congrArg Complex.im heq
  simp only [Complex.sub_im, Complex.add_im, Complex.mul_im, Complex.mul_re,
    Complex.ofReal_re, Complex.ofReal_im, Complex.I_re, Complex.I_im,
    Complex.zero_im, mul_zero, zero_mul, mul_one, one_mul, add_zero, zero_add,
    sub_zero, zero_sub] at him
  nlinarith [him, sin_one_pos]

/-- The (1,0) entry of the sandwich is nonzero: its imaginary part is
`(3/4)·sin 1 > 0`. -/
lemma sandwich_entry10_ne_zero :
    ((3 / 8 : ℝ) : ℂ) * Complex.exp I - ((3 / 8 : ℝ) : ℂ) * Complex.exp (-I) ≠ 0 := by
  intro heq
  rw [exp_neg_I_eq, exp_I_eq] at heq
  have him := congrArg Complex.im heq
  simp only [Complex.sub_im, Complex.add_im, Complex.mul_im, Complex.mul_re,
    Complex.ofReal_re, Complex.ofReal_im, Complex.I_re, Complex.I_im,
    Complex.zero_im, mul_zero, zero_mul, mul_one, one_mul, add_zero, zero_add,
    sub_zero, zero_sub] at him
  nlinarith [him, sin_one_pos]

/-- The matrix `main` composes (line 325) at the two-layer failing input:
only the last (zero-thickness) layer's triple enters, so the result is the
identity. -/
lemma mainTransferMatrix_two_layer_eq_one :
    mainTransferMatrix 1 [((2 : ℂ), 1 / 2), ((1 : ℂ), 0)] c 1 = some 1 := by
  have hu : IsUnit ((dynamical_matrix (1 : ℂ) 0).1).det :=
    isUnit_det_dyn 1 one_ne_zero
  show some (multilayer_matrix (inverse (dynamical_matrix (1 : ℂ) 0).1 ::
    layerMatrices c ((1 : ℂ), 0) ++ [(dynamical_matrix (1 : ℂ) 0).1])) = some 1
  refine congrArg some ?_
  simp only [multilayer_matrix, layerMatrices,
    propagation_matrix_zero_thickness, inverse, List.cons_append,
    List.nil_append, List.prod_cons, List.prod_nil, mul_one, one_mul,
    List.singleton_append]
  rw [Matrix.nonsing_inv_mul _ hu, mul_one, Matrix.nonsing_inv_mul _ hu]

/-- C1 (code bug): `main` constructs the full ordered matrix list but then
composes only `[D0inv, D_last, P_last, Dinv_last, Ds]`.  At the two-layer
stack `[(n=2, d=1/2), (n=1, d=0)]` with ambient and substrate index 1 and
`omega = c`, the matrix actually composed is the identity, while the
product of the assembled list is not — so the composed transfer matrix
does not equal the product of the ordered list whenever a non-final layer
is nontrivial. -/
theorem C1_main_composes_only_last_layer :
    mainTransferMatrix 1 [((2 : ℂ), 1 / 2), ((1 : ℂ), 0)] c 1 = some 1 ∧
    mainTransferMatrix 1 [((2 : ℂ), 1 / 2), ((1 : ℂ), 0)] c 1 ≠
      some (multilayer_matrix
        (mainMatrixList 1 [((2 : ℂ), 1 / 2), ((1 : ℂ), 0)] c 1)) := by
  refine ⟨mainTransferMatrix_two_layer_eq_one, ?_⟩
  rw [mainTransferMatrix_two_layer_eq_one]
  intro hsome
  have heq : (1 : Mat2) =
      multilayer_matrix (mainMatrixList 1 [((2 : ℂ), 1 / 2), ((1 : ℂ), 0)] c 1) :=
    Option.some.inj hsome
  have h1 : (multilayer_matrix
      (mainMatrixList 1 [((2 : ℂ), 1 / 2), ((1 : ℂ), 0)] c 1)) 0 0 = 1 := by
    rw [← heq]
    simp [Matrix.one_apply]
  rw [mainMatrixList_two_layer_entry] at h1
  exact two_layer_entry_ne_one h1

/-! ### Claim C9: zero-thickness layers and the computed R/T

The propagation matrix of a zero-thickness layer IS the identity, and
removing such a layer leaves the product of the assembled matrix list
unchanged (`mainMatrixList_zero_thickness_removable`).  But the program
extracts R and T from the line-325 composition, which keeps only the LAST
layer's triple — so removing a zero-thickness last interior layer changes
the computed coefficients. -/

/-- `reflectance` of the identity matrix. -/
lemma reflectance_one : reflectance (1 : Mat2) = Except.ok (0, 0) := by
  rw [reflectance]
  simp [Matrix.one_apply]

/-- The matrix `main` composes at the singleton stack `[(n=2, d=1/2)]`. -/
lemma mainTransferMatrix_single_layer :
    mainTransferMatrix 1 [((2 : ℂ), 1 / 2)] c 1 =
      some (inverse (dynamical_matrix (1 : ℂ) 0).1 *
        ((layerMatrices c ((2 : ℂ), 1 / 2)).prod *
          (dynamical_matrix (1 : ℂ) 0).1)) := by
  show some (multilayer_matrix (inverse (dynamical_matrix (1 : ℂ) 0).1 ::
    layerMatrices c ((2 : ℂ), 1 / 2) ++ [(dynamical_matrix (1 : ℂ) 0).1])) = _
  refine congrArg some ?_
  simp [multilayer_matrix, layerMatrices, List.prod_append, mul_assoc]

/-- C9 (code bug): the claim's first half is true of the code — a
zero-thickness layer's propagation matrix is the identity (for every
wavenumber) — but its second half is not: at the stack
`[(n=2, d=1/2), (n=1, d=0)]` with ambient and substrate index 1 and
`omega = c`, the matrix `main` composes is the identity, while after
removing the zero-thickness last layer it composes a different matrix
whose reflectance result differs.  The computed R and T change because
line 325 composes only the last layer's triple instead of the assembled
list, whose product would be invariant
(`mainMatrixList_zero_thickness_removable`). -/
theorem C9_zero_thickness_removal_changes_output :
    (∀ k : ℂ, propagation_matrix 0 k = 1) ∧
    mainTransferMatrix 1 [((2 : ℂ), 1 / 2), ((1 : ℂ), 0)] c 1 = some 1 ∧
    ∃ M', mainTransferMatrix 1 [((2 : ℂ), 1 / 2)] c 1 = some M' ∧
      reflectance M' ≠ reflectance 1 := by
  refine ⟨propagation_matrix_zero_thickness, mainTransferMatrix_two_layer_eq_one,
    inverse (dynamical_matrix (1 : ℂ) 0).1 *
      ((layerMatrices c ((2 : ℂ), 1 / 2)).prod * (dynamical_matrix (1 : ℂ) 0).1),
    mainTransferMatrix_single_layer, ?_⟩
  have h00ne : (inverse (dynamical_matrix (1 : ℂ) 0).1 *
      ((layerMatrices c ((2 : ℂ), 1 / 2)).prod *
        (dynamical_matrix (1 : ℂ) 0).1)) 0 0 ≠ 0 := by
    rw [single_layer_sandwich_entry00]
    exact two_layer_entry_ne_zero
  have h10ne : (inverse (dynamical_matrix (1 : ℂ) 0).1 *
      ((layerMatrices c ((2 : ℂ), 1 / 2)).prod *
        (dynamical_matrix (1 : ℂ) 0).1)) 1 0 ≠ 0 := by
    rw [single_layer_sandwich_entry10]
    exact sandwich_entry10_ne_zero
  rw [reflectance_one, reflectance]
  simp only [if_neg h00ne, ite_false, if_false]
  intro heq
  have hpair := Except.ok.inj heq
  have hr := congrArg Prod.snd hpair
  exact div_ne_zero h10ne h00ne hr

end Pistachio
